import Mathlib

/-!
Shallow embedding of the session engine and progress store of
`termtrainer.py`, together with theorems checking the specification's
claims against it.

The Python program keeps its durable state in a dict `self.data`
(`ProgressTracker.data`) and mirrors it to `progress.json` on `save()`.
We model the in-memory dict as `ProgressData` and the persisted file as
an `Option ProgressData` (`none` = no file yet); `save` copies the
in-memory state into the file component.
-/

namespace TermTrainer

/-- Per-category / per-command tally, mirroring the
`{"total": .., "correct": ..}` dicts in `categories_completed` and
`commands_practiced`. -/
structure Tally where
  total : Nat
  correct : Nat
deriving DecidableEq

/-- One entry of the wrong-answer registry (`data["wrong_answers"][key]`),
mirroring the dict built in `ProgressTracker.record_wrong_answer`.
Timestamps are modelled as opaque strings supplied by the caller. -/
structure WrongEntry where
  category : String
  command : String
  question : String
  answers : List String
  wrong_count : Nat
  last_wrong : String
  last_user_answer : String
deriving DecidableEq

/-- The in-memory progress dict `self.data`.  Python dicts preserve
insertion order, so the string-keyed dicts are modelled as association
lists (update-in-place, append on fresh key, as a dict behaves). -/
structure ProgressData where
  total_exercises : Nat
  correct_answers : Nat
  streak : Nat
  best_streak : Nat
  categories_completed : List (String × Tally)
  commands_practiced : List (String × Tally)
  last_practice : Option String
  achievements : List String
  wrong_answers : List (String × WrongEntry)
deriving DecidableEq

/-- The default zeroed state returned by `_load_progress` when no file
exists (termtrainer.py lines 666-676). -/
def defaultProgress : ProgressData :=
  { total_exercises := 0
    correct_answers := 0
    streak := 0
    best_streak := 0
    categories_completed := []
    commands_practiced := []
    last_practice := none
    achievements := []
    wrong_answers := [] }

/-- A `ProgressTracker` object: the in-memory data plus the contents of
`progress.json` (`none` when the file does not exist). -/
structure ProgressTracker where
  data : ProgressData
  file : Option ProgressData
deriving DecidableEq

/-- A tracker as built on first launch: default data, no file yet. -/
def defaultTracker : ProgressTracker :=
  { data := defaultProgress, file := none }

/-- ProgressTracker.save: dumps the in-memory dict to `progress.json`. -/
def save (t : ProgressTracker) : ProgressTracker :=
  { t with file := some t.data }

/-- The composite key `f"{category}::{command}::{question}"` used by the
wrong-answer registry. -/
def wrongKey (category command question : String) : String :=
  category ++ "::" ++ command ++ "::" ++ question

/-- Dict lookup on the wrong-answer association list. -/
def lookupEntry (l : List (String × WrongEntry)) (k : String) : Option WrongEntry :=
  (l.find? (fun p => p.1 == k)).map (fun p => p.2)

/-- ProgressTracker.record_wrong_answer (lines 687-706): on an existing
key, bump `wrong_count` and overwrite `last_wrong` / `last_user_answer`
in place; on a fresh key, insert a new entry with `wrong_count = 1`.
No `save()` call. -/
def record_wrong_answer (t : ProgressTracker) (category command question : String)
    (answers : List String) (user_answer : String) (now : String) : ProgressTracker :=
  let key := wrongKey category command question
  let wa := t.data.wrong_answers
  let wa' :=
    match lookupEntry wa key with
    | some _ =>
        wa.map (fun p =>
          if p.1 == key then
            (p.1, { p.2 with
                      wrong_count := p.2.wrong_count + 1
                      last_wrong := now
                      last_user_answer := user_answer })
          else p)
    | none =>
        wa ++ [(key,
          { category := category
            command := command
            question := question
            answers := answers
            wrong_count := 1
            last_wrong := now
            last_user_answer := user_answer })]
  { t with data := { t.data with wrong_answers := wa' } }

/-- ProgressTracker.remove_wrong_answer (lines 708-712): delete the
entry if the key is present, otherwise do nothing.  Note: the Python
body contains no `save()` call. -/
def remove_wrong_answer (t : ProgressTracker) (key : String) : ProgressTracker :=
  if (lookupEntry t.data.wrong_answers key).isSome then
    { t with data := { t.data with
        wrong_answers := t.data.wrong_answers.eraseP (fun p => p.1 == key) } }
  else t

/-- ProgressTracker.get_wrong_exercises (lines 714-722): list the
registry entries (key plus fields) and sort by `wrong_count` descending.
Python's stable `list.sort(reverse=True)` is modelled by a stable merge
sort with the reversed comparison. -/
def get_wrong_exercises (t : ProgressTracker) : List (String × WrongEntry) :=
  (t.data.wrong_answers).mergeSort
    (fun a b => decide (b.2.wrong_count ≤ a.2.wrong_count))

/-- The category / command tally update inside `record_attempt`
(lines 733-743): create a zeroed entry on first touch, then increment
`total` and, when correct, `correct`. -/
def bumpTally (m : List (String × Tally)) (k : String) (correct : Bool) :
    List (String × Tally) :=
  let m1 := if (m.find? (fun p => p.1 == k)).isSome then m else m ++ [(k, ⟨0, 0⟩)]
  m1.map (fun p =>
    if p.1 == k then
      (p.1, { total := p.2.total + 1
              correct := p.2.correct + (if correct then 1 else 0) })
    else p)

/-- The list of achievement identifiers collected by
`_check_achievements` (lines 750-762): each of the six thresholds is
checked with `>=` and the identifier is proposed only when not already
held. -/
def achievementCandidates (d : ProgressData) : List String :=
  (if 10 ≤ d.total_exercises ∧ "初学者" ∉ d.achievements then ["初学者"] else []) ++
  (if 50 ≤ d.total_exercises ∧ "练习达人" ∉ d.achievements then ["练习达人"] else []) ++
  (if 100 ≤ d.total_exercises ∧ "终端大师" ∉ d.achievements then ["终端大师"] else []) ++
  (if 5 ≤ d.streak ∧ "连胜新秀" ∉ d.achievements then ["连胜新秀"] else []) ++
  (if 10 ≤ d.streak ∧ "连胜达人" ∉ d.achievements then ["连胜达人"] else []) ++
  (if 20 ≤ d.best_streak ∧ "连胜大师" ∉ d.achievements then ["连胜大师"] else [])

/-- The append loop at the end of `_check_achievements` (lines 764-766):
each candidate is appended to the achievements list unless already
present. -/
def appendNew (acc : List String) (cands : List String) : List String :=
  cands.foldl (fun acc a => if a ∈ acc then acc else acc ++ [a]) acc

/-- ProgressTracker._check_achievements (lines 749-767), state effect
only (the unlock notification print is outside the model). -/
def check_achievements (d : ProgressData) : ProgressData :=
  { d with achievements := appendNew d.achievements (achievementCandidates d) }

/-- ProgressTracker.record_attempt (lines 724-747): bump the global
counters, the streak bookkeeping, the per-category and per-command
tallies, stamp `last_practice`, run the achievement check, then save. -/
def record_attempt (t : ProgressTracker) (category command : String)
    (correct : Bool) (now : String) : ProgressTracker :=
  let d0 := t.data
  let d1 := { d0 with total_exercises := d0.total_exercises + 1 }
  let d2 :=
    if correct then
      { d1 with correct_answers := d1.correct_answers + 1
                streak := d1.streak + 1
                best_streak := max d1.best_streak (d1.streak + 1) }
    else
      { d1 with streak := 0 }
  let d3 := { d2 with categories_completed := bumpTally d2.categories_completed category correct }
  let d4 := { d3 with commands_practiced := bumpTally d3.commands_practiced command correct }
  let d5 := { d4 with last_practice := some now }
  let d6 := check_achievements d5
  save { t with data := d6 }

/-- Whitespace test used for `str.strip()` / `str.split()`. -/
def isWs (c : Char) : Bool := c.isWhitespace

/-- One step of a right fold modelling Python `str.split()` with no
separator: a whitespace character opens a new (empty) group, a
non-whitespace character joins the group to its right. -/
def addChar (c : Char) (ws : List (List Char)) : List (List Char) :=
  if isWs c then [] :: ws
  else
    match ws with
    | [] => [[c]]
    | w :: rest => (c :: w) :: rest

/-- Python `str.split()` with no separator: split on runs of whitespace
and drop the empty pieces. -/
def pySplit (cs : List Char) : List (List Char) :=
  (cs.foldr addChar []).filter (fun w => !w.isEmpty)

/-- Python `sep.join(words)`. -/
def pyJoin (sep : List Char) : List (List Char) → List Char
  | [] => []
  | [w] => w
  | w :: ws => w ++ sep ++ pyJoin sep ws

/-- Python `str.strip()`: drop whitespace from both ends. -/
def pyStrip (cs : List Char) : List Char :=
  (((cs.dropWhile isWs).reverse.dropWhile isWs)).reverse

/-- TermTrainer.normalize_answer (lines 945-947):
`' '.join(answer.strip().split())`. -/
def normalize_answer (s : String) : String :=
  String.mk (pyJoin [' '] (pySplit (pyStrip s.data)))

/-- TermTrainer.check_answer (lines 949-955): normalize the submission,
then compare it with the normalization of each accepted answer, true on
the first hit. -/
def check_answer (user_answer : String) (correct_answers : List String) : Bool :=
  correct_answers.any (fun ans => normalize_answer ans == normalize_answer user_answer)

/-- A tracker holding one wrong-answer entry both in memory and in the
persisted file, used to exercise `remove_wrong_answer`. -/
def c3Entry : WrongEntry :=
  { category := "cat"
    command := "cmd"
    question := "q"
    answers := ["a"]
    wrong_count := 1
    last_wrong := "t0"
    last_user_answer := "x" }

def c3Data : ProgressData :=
  { defaultProgress with wrong_answers := [("cat::cmd::q", c3Entry)] }

def c3Tracker : ProgressTracker :=
  { data := c3Data, file := some c3Data }

/-- The three Progress Store mutations reachable from the session
loops, with timestamps supplied as data. -/
inductive Op where
  | attempt (category command : String) (correct : Bool) (now : String)
  | wrong (category command question : String) (answers : List String)
      (user_answer now : String)
  | removeW (key : String)

def applyOp (t : ProgressTracker) : Op → ProgressTracker
  | .attempt c m b now => record_attempt t c m b now
  | .wrong c m q ans ua now => record_wrong_answer t c m q ans ua now
  | .removeW k => remove_wrong_answer t k

def runOps (t : ProgressTracker) (ops : List Op) : ProgressTracker :=
  ops.foldl applyOp t

/-- The data-model invariants of §3 of the specification. -/
def ProgressInv (t : ProgressTracker) : Prop :=
  t.data.streak ≤ t.data.best_streak
  ∧ t.data.correct_answers ≤ t.data.total_exercises
  ∧ (t.data.wrong_answers.map Prod.fst).Nodup

/-- Python `str.lower()` (ASCII case folding suffices for the control
words compared against). -/
def pyLower (s : String) : String :=
  String.mk (s.data.map Char.toLower)

/-- An exercise as assembled in `practice_category` (lines 962-969). -/
structure Exercise where
  command : String
  description : String
  examples : List String
  question : String
  answers : List String
deriving DecidableEq

/-- An exercise as assembled in `random_practice` (lines 1044-1055),
which additionally carries its category key. -/
structure RandomExercise where
  category_key : String
  category_name : String
  command : String
  description : String
  examples : List String
  question : String
  answers : List String
deriving DecidableEq

/-- How the session loop proceeds after consuming one line of input:
abort the run, move to the next exercise, or re-prompt the same one. -/
inductive StepOutcome where
  | quitSession
  | advance
  | reprompt
deriving DecidableEq

/-- One iteration of the inner input loop of `practice_category`
(lines 991-1028), given the already-stripped input line.  `quit` aborts;
`skip` records a failed attempt and a wrong answer with user answer
`(跳过)`; `hint` and empty input re-prompt; otherwise the submission is
judged and recorded. -/
def practice_category_step (t : ProgressTracker) (category_key : String)
    (ex : Exercise) (user_input : String) (now : String) :
    ProgressTracker × StepOutcome :=
  if pyLower user_input == "quit" then (t, .quitSession)
  else if pyLower user_input == "skip" then
    let t1 := record_attempt t category_key ex.command false now
    let t2 := record_wrong_answer t1 category_key ex.command ex.question
      ex.answers "(跳过)" now
    (t2, .advance)
  else if pyLower user_input == "hint" then (t, .reprompt)
  else if user_input == "" then (t, .reprompt)
  else if check_answer user_input ex.answers then
    (record_attempt t category_key ex.command true now, .advance)
  else
    let t1 := record_attempt t category_key ex.command false now
    let t2 := record_wrong_answer t1 category_key ex.command ex.question
      ex.answers user_input now
    (t2, .advance)

/-- One iteration of the inner input loop of `random_practice`
(lines 1076-1113); identical to the category loop except that the
category key travels with the exercise. -/
def random_practice_step (t : ProgressTracker) (ex : RandomExercise)
    (user_input : String) (now : String) : ProgressTracker × StepOutcome :=
  if pyLower user_input == "quit" then (t, .quitSession)
  else if pyLower user_input == "skip" then
    let t1 := record_attempt t ex.category_key ex.command false now
    let t2 := record_wrong_answer t1 ex.category_key ex.command ex.question
      ex.answers "(跳过)" now
    (t2, .advance)
  else if pyLower user_input == "hint" then (t, .reprompt)
  else if user_input == "" then (t, .reprompt)
  else if check_answer user_input ex.answers then
    (record_attempt t ex.category_key ex.command true now, .advance)
  else
    let t1 := record_attempt t ex.category_key ex.command false now
    let t2 := record_wrong_answer t1 ex.category_key ex.command ex.question
      ex.answers user_input now
    (t2, .advance)

/-- One iteration of the inner input loop of `practice_wrong_answers`
(lines 1208-1241).  Note the `skip` branch (lines 1216-1218) only
reveals the answer and breaks: it performs no `record_attempt` and no
`record_wrong_answer` call. -/
def practice_wrong_answers_step (t : ProgressTracker) (key : String)
    (ex : WrongEntry) (user_input : String) (now : String) :
    ProgressTracker × StepOutcome :=
  if pyLower user_input == "quit" then (t, .quitSession)
  else if pyLower user_input == "skip" then (t, .advance)
  else if pyLower user_input == "hint" then (t, .reprompt)
  else if user_input == "" then (t, .reprompt)
  else if check_answer user_input ex.answers then
    let t1 := remove_wrong_answer t key
    (record_attempt t1 ex.category ex.command true now, .advance)
  else
    let t1 := record_attempt t ex.category ex.command false now
    (record_wrong_answer t1 ex.category ex.command ex.question ex.answers
      user_input now, .advance)

/-- A registry entry used to exercise the wrong-answer replay loop. -/
def c2Entry : WrongEntry :=
  { category := "files"
    command := "ls"
    question := "q"
    answers := ["ls -a"]
    wrong_count := 1
    last_wrong := "t0"
    last_user_answer := "x" }

example : normalize_answer "  ls    -a  " = "ls -a" := by decide
example : check_answer "ls  -a" ["ls -a", "ls -A"] = true := by decide
example : check_answer "ls -b" ["ls -a", "ls -A"] = false := by decide

lemma data_mk (l : List Char) : (String.mk l).data = l := rfl

lemma addChar_nonWs (c : Char) (ws : List (List Char))
    (h : ∀ w ∈ ws, ∀ d ∈ w, isWs d = false) :
    ∀ w ∈ addChar c ws, ∀ d ∈ w, isWs d = false := by
  intro w hw d hd
  cases hc : isWs c with
  | true =>
    unfold addChar at hw
    simp [hc] at hw
    rcases hw with rfl | hw
    · exact absurd hd (by simp)
    · exact h w hw d hd
  | false =>
    unfold addChar at hw
    cases ws with
    | nil =>
      simp [hc] at hw
      subst hw
      simp at hd
      subst hd
      exact hc
    | cons w0 rest =>
      simp [hc] at hw
      rcases hw with rfl | hw
      · rcases List.mem_cons.mp hd with rfl | hd
        · exact hc
        · exact h w0 (by simp) d hd
      · exact h w (by simp [hw]) d hd

lemma foldr_addChar_nonWs (cs : List Char) (acc : List (List Char))
    (hacc : ∀ w ∈ acc, ∀ d ∈ w, isWs d = false) :
    ∀ w ∈ List.foldr addChar acc cs, ∀ d ∈ w, isWs d = false := by
  induction cs with
  | nil => exact hacc
  | cons c cs ih =>
    simpa using addChar_nonWs c (List.foldr addChar acc cs) ih

/-- Every word produced by `pySplit` is nonempty and whitespace-free. -/
lemma pySplit_good (cs : List Char) :
    ∀ w ∈ pySplit cs, w ≠ [] ∧ ∀ d ∈ w, isWs d = false := by
  intro w hw
  obtain ⟨hmem, hpred⟩ := List.mem_filter.mp hw
  refine ⟨by simpa using hpred, ?_⟩
  exact foldr_addChar_nonWs cs [] (by simp) w hmem

lemma foldr_addChar_cons_acc (w : List Char) (hw : ∀ d ∈ w, isWs d = false)
    (g : List Char) (gs : List (List Char)) :
    List.foldr addChar (g :: gs) w = (w ++ g) :: gs := by
  induction w with
  | nil => simp
  | cons c w ih =>
    have hc : isWs c = false := hw c (by simp)
    have hw' : ∀ d ∈ w, isWs d = false := fun d hd => hw d (by simp [hd])
    simp only [List.foldr_cons, ih hw']
    unfold addChar
    simp [hc]

lemma foldr_addChar_nil_acc (w : List Char) (hw : ∀ d ∈ w, isWs d = false) :
    List.foldr addChar [] w = if w.isEmpty then [] else [w] := by
  induction w with
  | nil => simp
  | cons c w ih =>
    have hc : isWs c = false := hw c (by simp)
    have hw' : ∀ d ∈ w, isWs d = false := fun d hd => hw d (by simp [hd])
    simp only [List.foldr_cons, ih hw']
    cases w with
    | nil => simp [addChar, hc]
    | cons c0 w0 => simp [addChar, hc]

/-- Splitting is a retraction of joining on lists of nonempty,
whitespace-free words. -/
lemma pySplit_pyJoin (ws : List (List Char))
    (h : ∀ w ∈ ws, w ≠ [] ∧ ∀ d ∈ w, isWs d = false) :
    pySplit (pyJoin [' '] ws) = ws := by
  induction ws with
  | nil => rfl
  | cons w ws ih =>
    obtain ⟨hne, hnw⟩ := h w (by simp)
    have h' : ∀ v ∈ ws, v ≠ [] ∧ ∀ d ∈ v, isWs d = false :=
      fun v hv => h v (by simp [hv])
    cases ws with
    | nil =>
      show pySplit w = [w]
      unfold pySplit
      rw [foldr_addChar_nil_acc w hnw]
      simp [hne]
    | cons w' rest =>
      have hjoin : pyJoin [' '] (w :: w' :: rest)
          = w ++ (' ' :: pyJoin [' '] (w' :: rest)) := by
        simp [pyJoin]
      unfold pySplit
      rw [hjoin, List.foldr_append]
      have hsp : List.foldr addChar []
          (' ' :: pyJoin [' '] (w' :: rest))
          = [] :: List.foldr addChar [] (pyJoin [' '] (w' :: rest)) := by
        simp [addChar, isWs]
      rw [hsp, foldr_addChar_cons_acc w hnw]
      have := ih h'
      unfold pySplit at this
      simp only [List.append_nil, List.filter_cons]
      simp [hne, this]

lemma pyJoin_head_good (w : List Char) (ws : List (List Char))
    (h : ∀ v ∈ w :: ws, v ≠ [] ∧ ∀ d ∈ v, isWs d = false) :
    ∃ c t, pyJoin [' '] (w :: ws) = c :: t ∧ isWs c = false := by
  obtain ⟨hne, hnw⟩ := h w (by simp)
  cases w with
  | nil => exact absurd rfl hne
  | cons c w0 =>
    cases ws with
    | nil => exact ⟨c, w0, rfl, hnw c (by simp)⟩
    | cons w' rest =>
      exact ⟨c, w0 ++ ([' '] ++ pyJoin [' '] (w' :: rest)),
        by simp [pyJoin], hnw c (by simp)⟩

lemma pyJoin_reverse_good (w : List Char) (ws : List (List Char))
    (h : ∀ v ∈ w :: ws, v ≠ [] ∧ ∀ d ∈ v, isWs d = false) :
    ∃ c t, (pyJoin [' '] (w :: ws)).reverse = c :: t ∧ isWs c = false := by
  induction ws generalizing w with
  | nil =>
    obtain ⟨hne, hnw⟩ := h w (by simp)
    cases hr : w.reverse with
    | nil => exact absurd (by simpa using congrArg List.reverse hr) hne
    | cons c t =>
      refine ⟨c, t, by simpa [pyJoin] using hr, ?_⟩
      have hcw : c ∈ w := by
        have : c ∈ w.reverse := by simp [hr]
        simpa using this
      exact hnw c hcw
  | cons w' rest ih =>
    obtain ⟨c, t, hct, hc⟩ := ih w' (fun v hv => h v (by simp at hv ⊢; tauto))
    refine ⟨c, t ++ ([' '] ++ w.reverse), ?_, hc⟩
    have hjoin : pyJoin [' '] (w :: w' :: rest)
        = w ++ ([' '] ++ pyJoin [' '] (w' :: rest)) := by
      simp [pyJoin]
    rw [hjoin, List.reverse_append, List.reverse_append, hct]
    simp

lemma pyStrip_eq_of_good (x : List Char)
    (h1 : ∃ c t, x = c :: t ∧ isWs c = false)
    (h2 : ∃ c t, x.reverse = c :: t ∧ isWs c = false) :
    pyStrip x = x := by
  obtain ⟨c, t, rfl, hc⟩ := h1
  obtain ⟨d, r, hdr, hd⟩ := h2
  unfold pyStrip
  rw [List.dropWhile_cons, if_neg (by simp [hc])]
  rw [hdr, List.dropWhile_cons, if_neg (by simp [hd])]
  rw [← hdr, List.reverse_reverse]

/-- Normalization is idempotent (helper shared by several theorems). -/
lemma normalize_idem (s : String) :
    normalize_answer (normalize_answer s) = normalize_answer s := by
  simp only [normalize_answer, data_mk]
  have hgood := pySplit_good (pyStrip s.data)
  cases hw : pySplit (pyStrip s.data) with
  | nil => rfl
  | cons w rest =>
    have hgood' : ∀ v ∈ w :: rest, v ≠ [] ∧ ∀ d ∈ v, isWs d = false := by
      rw [← hw]; exact hgood
    rw [pyStrip_eq_of_good _ (pyJoin_head_good w rest hgood')
          (pyJoin_reverse_good w rest hgood'),
        pySplit_pyJoin _ hgood']

/-- Claim C8: the whitespace normalization is idempotent, and
`"ls   -a"` and `"ls -a"` normalize to the same canonical string. -/
theorem normalize_answer_idempotent :
    (∀ s, normalize_answer (normalize_answer s) = normalize_answer s) ∧
    normalize_answer "ls   -a" = normalize_answer "ls -a" :=
  ⟨normalize_idem, by decide⟩

/-- Claim C7, counterexample: with the accepted list `["ls  -a"]` (two
internal spaces) the matcher accepts the submission `"ls -a"`, although
the normalized submission is not string-equal to any accepted answer in
the list, so the claimed iff fails at this input. -/
theorem check_answer_raw_equality_counterexample :
    check_answer "ls -a" ["ls  -a"] = true ∧
    ¬ ∃ a ∈ (["ls  -a"] : List String), normalize_answer "ls -a" = a := by
  decide

/-- Claim C7 (amended): the matcher returns true iff the normalized
submission is string-equal to the normalization of at least one
accepted answer in the list. -/
theorem check_answer_iff (user_answer : String) (correct_answers : List String) :
    check_answer user_answer correct_answers = true ↔
    ∃ a ∈ correct_answers, normalize_answer user_answer = normalize_answer a := by
  unfold check_answer
  rw [List.any_eq_true]
  constructor
  · rintro ⟨a, ha, hb⟩
    rw [beq_iff_eq] at hb
    exact ⟨a, ha, hb.symm⟩
  · rintro ⟨a, ha, hb⟩
    refine ⟨a, ha, ?_⟩
    rw [beq_iff_eq]
    exact hb.symm

/-- Claim C10: matching is invariant under whitespace-normalizing the
accepted-answer list, because the matcher normalizes each accepted
answer as well as the submission. -/
theorem check_answer_map_normalize (user_answer : String) (correct_answers : List String) :
    check_answer user_answer correct_answers =
      check_answer user_answer (correct_answers.map normalize_answer) := by
  unfold check_answer
  rw [List.any_map]
  congr 1
  funext a
  simp [Function.comp, normalize_idem a]

/-- Claim C1: `record_attempt` increments `total_exercises` by 1; when
correct it increments `correct_answers` and `streak` and raises
`best_streak` to the max of its previous value and the new streak; when
incorrect it resets `streak` to 0 and leaves `correct_answers` and
`best_streak` unchanged. -/
theorem record_attempt_counters (t : ProgressTracker) (category command : String)
    (correct : Bool) (now : String) :
    (record_attempt t category command correct now).data.total_exercises
        = t.data.total_exercises + 1 ∧
    (record_attempt t category command correct now).data.correct_answers
        = t.data.correct_answers + (if correct then 1 else 0) ∧
    (record_attempt t category command correct now).data.streak
        = (if correct then t.data.streak + 1 else 0) ∧
    (record_attempt t category command correct now).data.best_streak
        = (if correct then max t.data.best_streak (t.data.streak + 1)
           else t.data.best_streak) := by
  cases correct <;>
    simp [record_attempt, check_achievements, save]

lemma lookupEntry_map_update (l : List (String × WrongEntry)) (key : String)
    (g : WrongEntry → WrongEntry) :
    lookupEntry (l.map (fun p => if p.1 == key then (p.1, g p.2) else p)) key
      = (lookupEntry l key).map g := by
  induction l with
  | nil => rfl
  | cons p l ih =>
    by_cases hp : (p.1 == key) = true
    · simp [lookupEntry, List.find?, hp]
    · have hb : (p.1 == key) = false := by simpa using hp
      simp only [List.map_cons, hb, Bool.false_eq_true, if_false]
      simp only [lookupEntry, List.find?, hb] at ih ⊢
      exact ih

lemma filter_ne_map_update (l : List (String × WrongEntry)) (key : String)
    (g : WrongEntry → WrongEntry) :
    (l.map (fun p => if p.1 == key then (p.1, g p.2) else p)).filter
        (fun p => p.1 != key)
      = l.filter (fun p => p.1 != key) := by
  simp only [bne]
  induction l with
  | nil => rfl
  | cons p l ih =>
    simp only [beq_iff_eq] at ih
    by_cases hp : (p.1 == key) = true
    · simp [List.filter, hp, ih]
    · have hb : (p.1 == key) = false := by simpa using hp
      simp [List.filter, hb, ih]

lemma filter_ne_eraseP (l : List (String × WrongEntry)) (key : String) :
    (l.eraseP (fun p => p.1 == key)).filter (fun p => p.1 != key)
      = l.filter (fun p => p.1 != key) := by
  simp only [bne]
  induction l with
  | nil => rfl
  | cons p l ih =>
    by_cases hp : (p.1 == key) = true
    · simp [List.eraseP, List.filter, hp]
    · have hb : (p.1 == key) = false := by simpa using hp
      simp [List.eraseP, List.filter, hb, ih]

lemma lookupEntry_eraseP_of_nodup (l : List (String × WrongEntry)) (key : String)
    (hnd : (l.map Prod.fst).Nodup) :
    lookupEntry (l.eraseP (fun p => p.1 == key)) key = none := by
  induction l with
  | nil => rfl
  | cons p l ih =>
    rw [List.map_cons] at hnd
    obtain ⟨hhead, htail⟩ := List.nodup_cons.mp hnd
    by_cases hp : (p.1 == key) = true
    · rw [List.eraseP_cons, hp]
      show lookupEntry l key = none
      have hfind : List.find? (fun q => q.1 == key) l = none := by
        rw [List.find?_eq_none]
        intro q hq hqk
        apply hhead
        have hq1 : q.1 = key := by simpa using hqk
        have hp1 : p.1 = key := by simpa using hp
        rw [hp1, ← hq1]
        exact List.mem_map_of_mem Prod.fst hq
      unfold lookupEntry
      rw [hfind]
      rfl
    · have hb : (p.1 == key) = false := by simpa using hp
      rw [List.eraseP_cons, hb]
      show lookupEntry (p :: l.eraseP (fun p => p.1 == key)) key = none
      unfold lookupEntry
      rw [List.find?_cons_of_neg _ (by simpa using hp)]
      exact ih htail

/-- Claim C4: `record_wrong_answer` keys the registry on
`category::command::question`; on an existing key it bumps that entry's
`wrong_count` and overwrites `last_wrong` / `last_user_answer`, on a
fresh key it appends a new entry with `wrong_count = 1`; other keys are
untouched and nothing is persisted. -/
theorem record_wrong_answer_spec (t : ProgressTracker)
    (category command question : String) (answers : List String) (ua now : String) :
    (match lookupEntry t.data.wrong_answers (wrongKey category command question) with
     | some e =>
        lookupEntry (record_wrong_answer t category command question answers ua now).data.wrong_answers
            (wrongKey category command question)
          = some { e with wrong_count := e.wrong_count + 1
                          last_wrong := now
                          last_user_answer := ua }
     | none =>
        (record_wrong_answer t category command question answers ua now).data.wrong_answers
          = t.data.wrong_answers ++ [(wrongKey category command question,
              { category := category
                command := command
                question := question
                answers := answers
                wrong_count := 1
                last_wrong := now
                last_user_answer := ua })])
    ∧ (record_wrong_answer t category command question answers ua now).file = t.file
    ∧ (record_wrong_answer t category command question answers ua now).data.wrong_answers.filter
          (fun p => p.1 != wrongKey category command question)
        = t.data.wrong_answers.filter
            (fun p => p.1 != wrongKey category command question) := by
  cases hl : lookupEntry t.data.wrong_answers (wrongKey category command question) with
  | some e =>
    have hre : record_wrong_answer t category command question answers ua now
        = { t with data := { t.data with
            wrong_answers := t.data.wrong_answers.map (fun p =>
              if p.1 == wrongKey category command question then
                (p.1, { p.2 with
                          wrong_count := p.2.wrong_count + 1
                          last_wrong := now
                          last_user_answer := ua })
              else p) } } := by
      simp only [record_wrong_answer, hl]
    rw [hre]
    have h2 := lookupEntry_map_update t.data.wrong_answers
      (wrongKey category command question)
      (fun en => { en with
                     wrong_count := en.wrong_count + 1
                     last_wrong := now
                     last_user_answer := ua })
    rw [hl] at h2
    exact ⟨h2, rfl,
      filter_ne_map_update t.data.wrong_answers
        (wrongKey category command question)
        (fun en => { en with
                       wrong_count := en.wrong_count + 1
                       last_wrong := now
                       last_user_answer := ua })⟩
  | none =>
    have hre : record_wrong_answer t category command question answers ua now
        = { t with data := { t.data with
            wrong_answers := t.data.wrong_answers ++
              [(wrongKey category command question,
                { category := category
                  command := command
                  question := question
                  answers := answers
                  wrong_count := 1
                  last_wrong := now
                  last_user_answer := ua })] } } := by
      simp only [record_wrong_answer, hl]
    rw [hre]
    refine ⟨rfl, rfl, ?_⟩
    rw [List.filter_append]
    simp

/-- Claim C3, counterexample: starting from a tracker whose file equals
its in-memory state and whose registry holds the key `cat::cmd::q`,
calling `remove_wrong_answer` on that key leaves the persisted file at
the old state, so the persisted state does not equal the in-memory
state after the call — the operation does not persist. -/
theorem remove_wrong_answer_no_persist_counterexample :
    (remove_wrong_answer c3Tracker "cat::cmd::q").file
      ≠ some (remove_wrong_answer c3Tracker "cat::cmd::q").data := by
  decide

/-- Claim C3 (amended): `remove_wrong_answer` deletes the entry for the
key when present and is a no-op otherwise, but it does not persist: the
file component is left unchanged (persistence happens only through the
`record_attempt` call made in the same step). -/
theorem remove_wrong_answer_spec (t : ProgressTracker) (key : String)
    (hnd : (t.data.wrong_answers.map Prod.fst).Nodup) :
    (remove_wrong_answer t key).file = t.file
    ∧ lookupEntry (remove_wrong_answer t key).data.wrong_answers key = none
    ∧ (remove_wrong_answer t key).data.wrong_answers.filter (fun p => p.1 != key)
        = t.data.wrong_answers.filter (fun p => p.1 != key)
    ∧ (lookupEntry t.data.wrong_answers key = none → remove_wrong_answer t key = t) := by
  cases hl : lookupEntry t.data.wrong_answers key with
  | some e =>
    have hre : remove_wrong_answer t key
        = { t with data := { t.data with
            wrong_answers := t.data.wrong_answers.eraseP (fun p => p.1 == key) } } := by
      simp [remove_wrong_answer, hl]
    rw [hre]
    refine ⟨rfl, lookupEntry_eraseP_of_nodup _ _ hnd, filter_ne_eraseP _ _, ?_⟩
    intro h
    exact absurd h (by simp)
  | none =>
    have hre : remove_wrong_answer t key = t := by
      simp [remove_wrong_answer, hl]
    rw [hre]
    exact ⟨rfl, hl, rfl, fun _ => rfl⟩

/-- Witness for the amended C3 at a concrete tracker and key. -/
theorem remove_wrong_answer_spec_witness :
    lookupEntry (remove_wrong_answer c3Tracker "cat::cmd::q").data.wrong_answers
      "cat::cmd::q" = none :=
  (remove_wrong_answer_spec c3Tracker "cat::cmd::q" (by decide)).2.1

lemma appendNew_cons (acc : List String) (a : String) (cands : List String) :
    appendNew acc (a :: cands)
      = appendNew (if a ∈ acc then acc else acc ++ [a]) cands := rfl

lemma appendNew_exists (cands acc : List String) :
    ∃ extra, appendNew acc cands = acc ++ extra := by
  induction cands generalizing acc with
  | nil => exact ⟨[], by simp [appendNew]⟩
  | cons a cands ih =>
    rw [appendNew_cons]
    by_cases h : a ∈ acc
    · rw [if_pos h]
      exact ih acc
    · rw [if_neg h]
      obtain ⟨e, he⟩ := ih (acc ++ [a])
      exact ⟨a :: e, by rw [he, List.append_assoc]; rfl⟩

lemma appendNew_mem (cands acc : List String) (x : String) :
    x ∈ appendNew acc cands ↔ x ∈ acc ∨ x ∈ cands := by
  induction cands generalizing acc with
  | nil => simp [appendNew]
  | cons a cands ih =>
    rw [appendNew_cons]
    by_cases h : a ∈ acc
    · rw [if_pos h, ih]
      constructor
      · rintro (hx | hx) <;> simp [hx]
      · rintro (hx | hx)
        · exact Or.inl hx
        · rcases List.mem_cons.mp hx with rfl | hx
          · exact Or.inl h
          · exact Or.inr hx
    · rw [if_neg h, ih]
      simp only [List.mem_append, List.mem_singleton, List.mem_cons]
      tauto

lemma appendNew_count (cands acc : List String) (x : String) :
    (appendNew acc cands).count x ≤ max (acc.count x) 1 := by
  induction cands generalizing acc with
  | nil =>
    simp only [appendNew, List.foldl_nil]
    exact le_max_left (acc.count x) 1
  | cons a cands ih =>
    rw [appendNew_cons]
    refine le_trans (ih _) ?_
    by_cases h : a ∈ acc
    · rw [if_pos h]
    · rw [if_neg h]
      by_cases hxa : x = a
      · subst hxa
        have hz : acc.count x = 0 := List.count_eq_zero.mpr h
        simp [List.count_append, hz]
      · simp [List.count_append, List.count_singleton', hxa]

lemma mem_ite_list {p : Prop} [Decidable p] {x y : String} :
    x ∈ (if p then [y] else ([] : List String)) ↔ p ∧ x = y := by
  split <;> simp_all

/-- Claim C5: the achievement check never removes an identifier (the
new list extends the old), never duplicates one (each identifier occurs
at most once, ever, when it occurred at most once before), and each of
the six identifiers is present afterwards iff it was already present or
its counter meets its threshold. -/
theorem check_achievements_spec (d : ProgressData) :
    (∃ extra, (check_achievements d).achievements = d.achievements ++ extra)
    ∧ (∀ x, (check_achievements d).achievements.count x
          ≤ max (d.achievements.count x) 1)
    ∧ ("初学者" ∈ (check_achievements d).achievements
        ↔ "初学者" ∈ d.achievements ∨ 10 ≤ d.total_exercises)
    ∧ ("练习达人" ∈ (check_achievements d).achievements
        ↔ "练习达人" ∈ d.achievements ∨ 50 ≤ d.total_exercises)
    ∧ ("终端大师" ∈ (check_achievements d).achievements
        ↔ "终端大师" ∈ d.achievements ∨ 100 ≤ d.total_exercises)
    ∧ ("连胜新秀" ∈ (check_achievements d).achievements
        ↔ "连胜新秀" ∈ d.achievements ∨ 5 ≤ d.streak)
    ∧ ("连胜达人" ∈ (check_achievements d).achievements
        ↔ "连胜达人" ∈ d.achievements ∨ 10 ≤ d.streak)
    ∧ ("连胜大师" ∈ (check_achievements d).achievements
        ↔ "连胜大师" ∈ d.achievements ∨ 20 ≤ d.best_streak) := by
  have hach : (check_achievements d).achievements
      = appendNew d.achievements (achievementCandidates d) := rfl
  have hmem : ∀ x, x ∈ (check_achievements d).achievements
      ↔ x ∈ d.achievements ∨ x ∈ achievementCandidates d := by
    intro x
    rw [hach]
    exact appendNew_mem _ _ x
  refine ⟨?_, ?_, ?_, ?_, ?_, ?_, ?_, ?_⟩
  · rw [hach]
    exact appendNew_exists _ _
  · intro x
    rw [hach]
    exact appendNew_count _ _ x
  all_goals
    rw [hmem]
    simp only [achievementCandidates, List.mem_append, mem_ite_list]
    simp
    tauto

/-- Claim C9: `get_wrong_exercises` returns exactly the registry's
entries (a permutation of the stored key→entry pairs) in an order whose
`wrong_count` values are non-increasing. -/
theorem get_wrong_exercises_spec (t : ProgressTracker) :
    List.Perm (get_wrong_exercises t) t.data.wrong_answers
    ∧ List.Pairwise (fun a b => b.2.wrong_count ≤ a.2.wrong_count)
        (get_wrong_exercises t) := by
  refine ⟨List.mergeSort_perm _ _, ?_⟩
  have hs := @List.sorted_mergeSort (String × WrongEntry)
    (fun a b => decide (b.2.wrong_count ≤ a.2.wrong_count))
    (fun a b c hab hbc => by
      simp only [decide_eq_true_eq] at hab hbc ⊢
      omega)
    (fun a b => by
      simp only [Bool.or_eq_true, decide_eq_true_eq]
      omega)
    t.data.wrong_answers
  exact hs.imp (fun h => by simpa using h)

lemma record_attempt_wrong_answers (t : ProgressTracker) (c m : String)
    (b : Bool) (now : String) :
    (record_attempt t c m b now).data.wrong_answers = t.data.wrong_answers := by
  cases b <;> rfl

lemma inv_record_attempt (t : ProgressTracker) (c m : String) (b : Bool)
    (now : String) (h : ProgressInv t) :
    ProgressInv (record_attempt t c m b now) := by
  obtain ⟨h1, h2, h3⟩ := h
  refine ⟨?_, ?_, ?_⟩
  · cases b <;> simp [record_attempt, check_achievements, save]
  · cases b <;> simp [record_attempt, check_achievements, save] <;> omega
  · rw [record_attempt_wrong_answers]
    exact h3

lemma inv_record_wrong_answer (t : ProgressTracker)
    (c m q : String) (ans : List String) (ua now : String)
    (h : ProgressInv t) :
    ProgressInv (record_wrong_answer t c m q ans ua now) := by
  obtain ⟨h1, h2, h3⟩ := h
  refine ⟨h1, h2, ?_⟩
  show (((record_wrong_answer t c m q ans ua now).data.wrong_answers).map Prod.fst).Nodup
  cases hl : lookupEntry t.data.wrong_answers (wrongKey c m q) with
  | some e =>
    have hre : (record_wrong_answer t c m q ans ua now).data.wrong_answers
        = t.data.wrong_answers.map (fun p =>
            if p.1 == wrongKey c m q then
              (p.1, { p.2 with
                        wrong_count := p.2.wrong_count + 1
                        last_wrong := now
                        last_user_answer := ua })
            else p) := by
      simp only [record_wrong_answer, hl]
    rw [hre, List.map_map]
    have : (Prod.fst ∘ fun p : String × WrongEntry =>
        if p.1 == wrongKey c m q then
          (p.1, { p.2 with
                    wrong_count := p.2.wrong_count + 1
                    last_wrong := now
                    last_user_answer := ua })
        else p) = Prod.fst := by
      funext p
      by_cases hp : (p.1 == wrongKey c m q) = true <;> simp [Function.comp, hp]
    rw [this]
    exact h3
  | none =>
    have hre : (record_wrong_answer t c m q ans ua now).data.wrong_answers
        = t.data.wrong_answers ++ [(wrongKey c m q,
            { category := c
              command := m
              question := q
              answers := ans
              wrong_count := 1
              last_wrong := now
              last_user_answer := ua })] := by
      simp only [record_wrong_answer, hl]
    rw [hre, List.map_append]
    refine List.Nodup.append h3 (by simp) ?_
    intro x hx hk
    simp only [List.map_cons, List.map_nil, List.mem_singleton] at hk
    subst hk
    obtain ⟨p, hp, hp1⟩ := List.mem_map.mp hx
    have hfind := List.find?_eq_none.mp (by
      unfold lookupEntry at hl
      exact Option.map_eq_none.mp hl) p hp
    apply hfind
    simpa using hp1

lemma inv_remove_wrong_answer (t : ProgressTracker) (key : String)
    (h : ProgressInv t) :
    ProgressInv (remove_wrong_answer t key) := by
  obtain ⟨h1, h2, h3⟩ := h
  unfold remove_wrong_answer
  split
  · refine ⟨h1, h2, ?_⟩
    have hsub := (List.eraseP_sublist
      (l := t.data.wrong_answers) (p := fun p => p.1 == key)).map Prod.fst
    exact List.Nodup.sublist hsub h3
  · exact ⟨h1, h2, h3⟩

lemma inv_runOps (ops : List Op) (t : ProgressTracker) (h : ProgressInv t) :
    ProgressInv (runOps t ops) := by
  induction ops generalizing t with
  | nil => exact h
  | cons op ops ih =>
    refine ih (applyOp t op) ?_
    cases op with
    | attempt c m b now => exact inv_record_attempt t c m b now h
    | wrong c m q ans ua now => exact inv_record_wrong_answer t c m q ans ua now h
    | removeW k => exact inv_remove_wrong_answer t k h

/-- Claim C6: from the default zeroed state, any sequence of Progress
Store operations preserves `best_streak ≥ streak`,
`correct_answers ≤ total_exercises`, and key-uniqueness of the
wrong-answer registry. -/
theorem progress_invariants (ops : List Op) :
    ProgressInv (runOps defaultTracker ops) :=
  inv_runOps ops defaultTracker
    ⟨Nat.le_refl 0, Nat.le_refl 0, List.nodup_nil⟩

/-- Claim C2, counterexample: in the wrong-answer replay loop a `skip`
input leaves the tracker completely unchanged — in particular no
`record_attempt(..., false)` happens (which would have incremented
`total_exercises`) and no `record_wrong_answer` happens, unlike the
failure-path bookkeeping the claim requires in every mode. -/
theorem replay_skip_no_bookkeeping_counterexample :
    practice_wrong_answers_step defaultTracker "files::ls::q" c2Entry "skip" "t1"
      = (defaultTracker, StepOutcome.advance)
    ∧ defaultTracker
        ≠ record_wrong_answer (record_attempt defaultTracker "files" "ls" false "t1")
            "files" "ls" "q" ["ls -a"] "(跳过)" "t1" := by
  decide

/-- Claim C2 (amended): in single-category practice and in random
practice a `skip` input performs the failure path's bookkeeping — a
`record_attempt(..., false)` call followed by a `record_wrong_answer`
call with `(跳过)` as the recorded user answer — and advances; in the
wrong-answer replay loop `skip` advances without touching the store. -/
theorem skip_step_spec (t : ProgressTracker) (category_key : String)
    (ex : Exercise) (rex : RandomExercise) (key : String) (we : WrongEntry)
    (now : String) :
    practice_category_step t category_key ex "skip" now
      = (record_wrong_answer (record_attempt t category_key ex.command false now)
          category_key ex.command ex.question ex.answers "(跳过)" now,
         StepOutcome.advance)
    ∧ random_practice_step t rex "skip" now
      = (record_wrong_answer (record_attempt t rex.category_key rex.command false now)
          rex.category_key rex.command rex.question rex.answers "(跳过)" now,
         StepOutcome.advance)
    ∧ practice_wrong_answers_step t key we "skip" now = (t, StepOutcome.advance) := by
  have hq : (pyLower "skip" == "quit") = false := by decide
  have hs : (pyLower "skip" == "skip") = true := by decide
  refine ⟨?_, ?_, ?_⟩ <;>
    simp [practice_category_step, random_practice_step,
      practice_wrong_answers_step, hq, hs]

end TermTrainer
